import Mathlib

/-
  Verification of the beamsplitter scanner (tools/beamsplitter/parse, Go).

  The Go lexer is shallowly embedded below.  Go strings are modelled as
  `List Char` and positions count runes (the Go code counts bytes; all
  keywords and delimiters involved are ASCII, where the two notions agree,
  and the properties stated here are at rune granularity).  The Go rune
  value `eof = -1` is modelled by `Option Char` with `none` for eof.
  The items channel is modelled by returning the list of emitted items in
  emission order; `close(l.items)` corresponds to a run result whose state
  component is `none`.  The `name` field of the Go lexer (used only for
  error reports, and in fact unused in the inspected file) is omitted.
-/

namespace Beamsplitter

/-- itemType from the source: identifies the type of lex items. -/
inductive ItemType where
  | itemError
  | itemBlockCommentGroupBegin
  | itemBlockCommentGroupEnd
  | itemSimpleType
  | itemMethodBody
  | itemMethodArgs
  | itemTemplateArgs
  | itemDefaultValue
  | itemIdentifier
  | itemEOF
  | itemSymbol
  | itemOpenBrace
  | itemCloseBrace
  | itemSemicolon
  | itemColon
  | itemEquals
  | itemKeyword
  | itemNamespace
  | itemClass
  | itemConst
  | itemNoexcept
  | itemStruct
  | itemEnum
  | itemTemplate
  | itemPublic
  | itemProtected
  | itemPrivate
  | itemUsing
  deriving DecidableEq, Repr

/-- item from the source: a token or text string returned from the scanner.
`pos` is the starting position of the item in the input, `val` its text,
`line` the line number at the start of the item. -/
structure Item where
  typ : ItemType
  pos : Nat
  val : List Char
  line : Nat
  deriving DecidableEq, Repr

/-- lexer from the source: holds the state of the scanner.
`line` is 1 + number of newlines seen, `startLine` the start line of the
current item, `pos` the current position, `start` the start position of the
current item, `atEOF` records that the end of input was hit. -/
structure Lexer where
  input : List Char
  line : Nat
  startLine : Nat
  parenDepth : Int
  braceDepth : Int
  angleBracketDepth : Int
  pos : Nat
  start : Nat
  atEOF : Bool
  deriving DecidableEq, Repr

/-- Convert a Lean string literal to the `List Char` model of Go strings. -/
def goStr (s : String) : List Char := s.toList

/-- unicode.IsLetter, on the ASCII range the grammar uses
(identifiers are `[A-Za-z_][A-Za-z0-9_]*` per the README). -/
def isLetterGo (c : Char) : Bool := c.isAlpha

/-- unicode.IsDigit. -/
def isDigitGo (c : Char) : Bool := c.isDigit

/-- isAlphaNumeric from the source: `r == '_' || unicode.IsLetter(r) || unicode.IsDigit(r)`. -/
def isAlphaNumericGo (c : Char) : Bool := c = '_' || isLetterGo c || isDigitGo c

/-- isAlphaNumeric applied to the result of next(); the Go eof rune (-1) is
not alphanumeric. -/
def isAlphaNumericOpt : Option Char → Bool
  | some c => isAlphaNumericGo c
  | none => false

/-- unicode.IsSpace on Latin-1: '\t', '\n', '\v', '\f', '\r', ' ', U+0085, U+00A0. -/
def isSpaceGo (c : Char) : Bool :=
  c = ' ' || c = '\t' || c = '\n' || c = Char.ofNat 11 || c = Char.ofNat 12 ||
  c = '\r' || c = Char.ofNat 133 || c = Char.ofNat 160

/-- strings.ContainsRune applied to the result of next(); the eof rune is
contained in no string. -/
def containsRuneGo (valid : List Char) : Option Char → Bool
  | some c => valid.contains c
  | none => false

/-- The state change performed by next() when it consumes the rune r:
pos advances by one rune and a newline increments the line counter. -/
def advanceGo (l : Lexer) (r : Char) : Lexer :=
  { l with pos := l.pos + 1, line := if r = '\n' then l.line + 1 else l.line }

/-- next from the source: returns the next rune in the input; at the end of
input it sets atEOF and returns eof (modelled as `none`). -/
def nextGo (l : Lexer) : Option Char × Lexer :=
  if h : l.pos < l.input.length then
    let r := l.input.get ⟨l.pos, h⟩
    (some r, advanceGo l r)
  else
    (none, { l with atEOF := true })

/-- backup from the source: steps back one rune when not atEOF and pos > 0,
decoding the last rune before pos and correcting the newline count.
(The default character of `getD` is never used: the branch is taken only
with 0 < pos, and reachable states have pos ≤ input length.) -/
def backupGo (l : Lexer) : Lexer :=
  if l.atEOF = false ∧ 0 < l.pos then
    let r := l.input.getD (l.pos - 1) (Char.ofNat 0)
    { l with pos := l.pos - 1, line := if r = '\n' then l.line - 1 else l.line }
  else l

/-- peek from the source: next followed by backup. -/
def peekGo (l : Lexer) : Option Char × Lexer :=
  let (r, l1) := nextGo l
  (r, backupGo l1)

/-- backupMultiple from the source: backup, count times. -/
def backupMultipleGo : Nat → Lexer → Lexer
  | 0, l => l
  | n + 1, l => backupMultipleGo n (backupGo l)

/-- emit from the source: passes `item{t, l.start, l.input[l.start:l.pos],
l.startLine}` to the client and advances start/startLine. -/
def emitGo (t : ItemType) (l : Lexer) : Item × Lexer :=
  (⟨t, l.start, (l.input.drop l.start).take (l.pos - l.start), l.startLine⟩,
   { l with start := l.pos, startLine := l.line })

/-- ignore from the source: skips the pending input, adding the newlines it
contains to the line counter. -/
def ignoreGo (l : Lexer) : Lexer :=
  let skipped := (l.input.drop l.start).take (l.pos - l.start)
  let newLine := l.line + (skipped.filter (fun c => c = '\n')).length
  { l with line := newLine, start := l.pos, startLine := newLine }

/-- accept from the source: consumes the next rune if it is from the valid
set, otherwise backs up. -/
def acceptGo (valid : List Char) (l : Lexer) : Bool × Lexer :=
  let (r, l1) := nextGo l
  if containsRuneGo valid r then (true, l1) else (false, backupGo l1)

/-- acceptAlphaNumeric from the source. -/
def acceptAlphaNumericGo (l : Lexer) : Bool × Lexer :=
  let (r, l1) := nextGo l
  if isAlphaNumericOpt r then (true, l1) else (false, backupGo l1)

/-- Loop of acceptRun, structurally recursive on a fuel bound; the wrapper
passes fuel `input.length + 1 - pos`, enough for the loop to exit on its
own (each successful next consumes one rune, and next at the end of input
exits the loop), so the fuel-exhausted base case is never reached from the
wrapper. -/
def acceptRunGoA (valid : List Char) : Nat → Lexer → Lexer
  | 0, l => l
  | n + 1, l =>
    let (r, l1) := nextGo l
    if containsRuneGo valid r then acceptRunGoA valid n l1 else backupGo l1

/-- acceptRun from the source: consumes a run of runes from the valid set. -/
def acceptRunGo (valid : List Char) (l : Lexer) : Lexer :=
  acceptRunGoA valid (l.input.length + 1 - l.pos) l

/-- acceptSpace from the source: `lex.accept(" \t\n")`. -/
def acceptSpaceGo (l : Lexer) : Bool × Lexer :=
  acceptGo (goStr " \t\n") l

/-- acceptRune from the source: consumes the next rune if it equals the
expected one, otherwise backs up. -/
def acceptRuneGo (expected : Char) (l : Lexer) : Bool × Lexer :=
  let (r, l1) := nextGo l
  if r = some expected then (true, l1) else (false, backupGo l1)

/-- Loop of acceptString from the source, with `i` the number of runes of
the expected string already consumed (the Go loop index over an ASCII
expected string).  On a mismatch the source calls `backupMultiple(i)`:
the mismatching rune just consumed by next() is NOT backed up. -/
def acceptStringGoA : List Char → Nat → Lexer → Bool × Lexer
  | [], _, l => (true, l)
  | c :: rest, i, l =>
    let (r, l1) := nextGo l
    if r = some c then acceptStringGoA rest (i + 1) l1
    else (false, backupMultipleGo i l1)

/-- acceptString from the source. -/
def acceptStringGo (expected : List Char) (l : Lexer) : Bool × Lexer :=
  acceptStringGoA expected 0 l

/-- eof from the source: `lex.pos >= len(lex.input)`. -/
def eofGo (l : Lexer) : Bool := decide (l.input.length ≤ l.pos)

/-- Run loop of acceptIdentifier (`for isAlphaNumeric(lex.next()) {}` then a
final backup), structurally recursive on a fuel bound as in acceptRunGoA. -/
def acceptIdentRunA : Nat → Lexer → Lexer
  | 0, l => l
  | n + 1, l =>
    let (r, l1) := nextGo l
    if isAlphaNumericOpt r then acceptIdentRunA n l1 else backupGo l1

/-- acceptIdentifier from the source: one rune that is '_' or a letter,
then a run of alphanumeric runes. -/
def acceptIdentifierGo (l : Lexer) : Bool × Lexer :=
  let (r, l1) := nextGo l
  match r with
  | some c =>
    if c ≠ '_' ∧ isLetterGo c = false then (false, backupGo l1)
    else (true, acceptIdentRunA (l1.input.length + 1 - l1.pos) l1)
  | none => (false, backupGo l1)

/-- acceptKeyword from the source: acceptString, then (unless at eof) the
keyword must not be followed by an alphanumeric rune; if it is, back up to
the recorded start position (`backupMultiple(lex.pos - start)`, where
start is the value of lex.pos on entry, here written l.pos). -/
def acceptKeywordGo (keyword : List Char) (l : Lexer) : Bool × Lexer :=
  match acceptStringGo keyword l with
  | (false, l1) => (false, l1)
  | (true, l1) =>
    if eofGo l1 then (true, l1)
    else
      match acceptAlphaNumericGo l1 with
      | (true, l2) => (false, backupMultipleGo (l2.pos - l.pos) l2)
      | (false, l2) => (true, l2)

/-- errorf from the source: builds the error item
`item{itemError, l.start, message, l.startLine}`; the lexer state is not
changed and the next state is nil. -/
def errorfGo (msg : List Char) (l : Lexer) : Item :=
  ⟨ItemType.itemError, l.start, msg, l.startLine⟩

/-- The state functions of the scanner that a state function can return as
a value (a Go `stateFn`); `lexStruct`, `lexClass` and `lexEnum` are
referenced by lexBlockFn but their definitions are not part of the
inspected source, so they appear only as the opaque tags structBody,
classBody, enumBody. -/
inductive StateF where
  | root
  | lineComment
  | eatLine
  | blockComment
  | structBody
  | classBody
  | enumBody
  deriving DecidableEq, Repr

/-- lexLineCommentFn from the source: nil at eof; `accept("\n")` goes back
to the root state; otherwise the state function returns itself (note that
accept backs the non-matching rune up, so the position is unchanged). -/
def lexLineCommentFnGo (l : Lexer) : List Item × Option StateF × Lexer :=
  if eofGo l then ([], none, l)
  else
    match acceptGo (goStr "\n") l with
    | (true, l1) => ([], some StateF.root, l1)
    | (false, l1) => ([], some StateF.lineComment, l1)

/-- lexEatLineFn from the source: same shape as lexLineCommentFn. -/
def lexEatLineFnGo (l : Lexer) : List Item × Option StateF × Lexer :=
  if eofGo l then ([], none, l)
  else
    match acceptGo (goStr "\n") l with
    | (true, l1) => ([], some StateF.root, l1)
    | (false, l1) => ([], some StateF.eatLine, l1)

/-- lexBlockCommentFn from the source: errors at eof; `lex.accept("*/")`
accepts a single rune from the SET of runes '*' and '/'; otherwise the
state function returns itself without consuming anything. -/
def lexBlockCommentFnGo (l : Lexer) : List Item × Option StateF × Lexer :=
  if eofGo l then ([errorfGo (goStr "Unexpected EOF") l], none, l)
  else
    match acceptGo (goStr "*/") l with
    | (true, l1) => ([], some StateF.root, l1)
    | (false, l1) => ([], some StateF.blockComment, l1)

/-- Selector for the two mutually recursive state functions lexNamespaceFn
and lexBlockFn from the source, merged into one fuel-indexed function so
that the recursion is structural (each call of one into the other has
strictly consumed input, so the fuel `input.length + 1` of the wrappers is
never exhausted). -/
inductive HdrOrBlock where
  | hdr
  | blk
  deriving DecidableEq, Repr

/-- The optional identifier of the struct branch of lexBlockFn:
`if lex.acceptIdentifier() { lex.emit(itemIdentifier) }`, returning the
zero or one items emitted. -/
def structIdentGo (l : Lexer) : List Item × Lexer :=
  match acceptIdentifierGo l with
  | (true, la) =>
    let ei := emitGo ItemType.itemIdentifier la
    ([ei.1], ei.2)
  | (false, la) => ([], la)

/-- lexNamespaceFn (tag hdr) and lexBlockFn (tag blk) from the source.
lexNamespaceFn, entered just past the namespace keyword: `{` emits
itemOpenBrace and runs lexBlockFn; otherwise an identifier is emitted and a
following `{` runs lexBlockFn; every other shape errors "Badly formed
namespace".  lexBlockFn tries the keywords namespace, struct, class, enum
in this order with acceptKeyword; struct may omit the identifier, class and
enum require one (else "Anonymous classes are illegal." /
"Anonymous enums are illegal."), each then requires `{`, emits
itemOpenBrace and continues in the corresponding body state; if no keyword
matches it errors "Expected namespace, struct, class, or enum.". -/
def nsOrBlockGoA : Nat → HdrOrBlock → Lexer → List Item × Option StateF × Lexer
  | 0, _, l => ([], none, l)
  | n + 1, HdrOrBlock.hdr, l =>
    match acceptRuneGo '{' l with
    | (true, l1) =>
      let e1 := emitGo ItemType.itemOpenBrace l1
      let r := nsOrBlockGoA n HdrOrBlock.blk e1.2
      (e1.1 :: r.1, r.2)
    | (false, l1) =>
      match acceptIdentifierGo l1 with
      | (true, l2) =>
        let e1 := emitGo ItemType.itemIdentifier l2
        match acceptRuneGo '{' e1.2 with
        | (true, l4) =>
          let e2 := emitGo ItemType.itemOpenBrace l4
          let r := nsOrBlockGoA n HdrOrBlock.blk e2.2
          (e1.1 :: e2.1 :: r.1, r.2)
        | (false, l4) => ([e1.1, errorfGo (goStr "Badly formed namespace") l4], none, l4)
      | (false, l2) => ([errorfGo (goStr "Badly formed namespace") l2], none, l2)
  | n + 1, HdrOrBlock.blk, l =>
    match acceptKeywordGo (goStr "namespace") l with
    | (true, l1) =>
      let e1 := emitGo ItemType.itemNamespace l1
      let r := nsOrBlockGoA n HdrOrBlock.hdr e1.2
      (e1.1 :: r.1, r.2)
    | (false, l1) =>
      match acceptKeywordGo (goStr "struct") l1 with
      | (true, l2) =>
        let e1 := emitGo ItemType.itemStruct l2
        let oi := structIdentGo e1.2
        match acceptRuneGo '{' oi.2 with
        | (false, l5) => (e1.1 :: (oi.1 ++ [errorfGo (goStr "Badly formed struct") l5]), none, l5)
        | (true, l5) =>
          let e2 := emitGo ItemType.itemOpenBrace l5
          (e1.1 :: (oi.1 ++ [e2.1]), some StateF.structBody, e2.2)
      | (false, l2) =>
        match acceptKeywordGo (goStr "class") l2 with
        | (true, l3) =>
          let e1 := emitGo ItemType.itemClass l3
          match acceptIdentifierGo e1.2 with
          | (false, l5) => ([e1.1, errorfGo (goStr "Anonymous classes are illegal.") l5], none, l5)
          | (true, l5) =>
            let ei := emitGo ItemType.itemIdentifier l5
            match acceptRuneGo '{' ei.2 with
            | (false, l7) => ([e1.1, ei.1, errorfGo (goStr "Badly formed class") l7], none, l7)
            | (true, l7) =>
              let e2 := emitGo ItemType.itemOpenBrace l7
              ([e1.1, ei.1, e2.1], some StateF.classBody, e2.2)
        | (false, l3) =>
          match acceptKeywordGo (goStr "enum") l3 with
          | (true, l4) =>
            let e1 := emitGo ItemType.itemEnum l4
            match acceptIdentifierGo e1.2 with
            | (false, l6) => ([e1.1, errorfGo (goStr "Anonymous enums are illegal.") l6], none, l6)
            | (true, l6) =>
              let ei := emitGo ItemType.itemIdentifier l6
              match acceptRuneGo '{' ei.2 with
              | (false, l8) => ([e1.1, ei.1, errorfGo (goStr "Badly formed enum") l8], none, l8)
              | (true, l8) =>
                let e2 := emitGo ItemType.itemOpenBrace l8
                ([e1.1, ei.1, e2.1], some StateF.enumBody, e2.2)
          | (false, l4) =>
            ([errorfGo (goStr "Expected namespace, struct, class, or enum.") l4], none, l4)

/-- lexNamespaceFn from the source (wrapper fixing the fuel). -/
def lexNamespaceFnGo (l : Lexer) : List Item × Option StateF × Lexer :=
  nsOrBlockGoA (l.input.length + 1) HdrOrBlock.hdr l

/-- lexBlockFn from the source (wrapper fixing the fuel). -/
def lexBlockFnGo (l : Lexer) : List Item × Option StateF × Lexer :=
  nsOrBlockGoA (l.input.length + 1) HdrOrBlock.blk l

/-- lexRootFn from the source: nil at eof; skip one space rune plus a run
of spaces and stay in root; `/*` runs lexBlockCommentFn; `//` runs
lexLineCommentFn; `#` runs lexEatLineFn; the keyword namespace is emitted
and lexNamespaceFn runs; anything else errors "Expected namespace". -/
def lexRootFnGo (l : Lexer) : List Item × Option StateF × Lexer :=
  if eofGo l then ([], none, l)
  else
    match acceptSpaceGo l with
    | (true, l1) => ([], some StateF.root, acceptRunGo (goStr " \n\t") l1)
    | (false, l1) =>
      match acceptStringGo (goStr "/*") l1 with
      | (true, l2) => lexBlockCommentFnGo l2
      | (false, l2) =>
        match acceptStringGo (goStr "//") l2 with
        | (true, l3) => lexLineCommentFnGo l3
        | (false, l3) =>
          match acceptRuneGo '#' l3 with
          | (true, l4) => lexEatLineFnGo l4
          | (false, l4) =>
            match acceptKeywordGo (goStr "namespace") l4 with
            | (true, l5) =>
              let e1 := emitGo ItemType.itemNamespace l5
              let r := lexNamespaceFnGo e1.2
              (e1.1 :: r.1, r.2)
            | (false, l5) => ([errorfGo (goStr "Expected namespace") l5], none, l5)

/-- lexSymbolFn from the source: switches on `lex.input[lex.pos]` WITHOUT a
bounds check, so the Go code panics when pos is at the end of input; the
panic is modelled as `none`.  On a recognized symbol it increments pos,
emits the symbol item and returns to the root state; otherwise it errors
"Unexpected input". -/
def lexSymbolFnGo (l : Lexer) : Option (List Item × Option StateF × Lexer) :=
  if h : l.pos < l.input.length then
    some (
      match l.input.get ⟨l.pos, h⟩ with
      | '{' =>
        let (it, l2) := emitGo ItemType.itemOpenBrace { l with pos := l.pos + 1 }
        ([it], some StateF.root, l2)
      | '}' =>
        let (it, l2) := emitGo ItemType.itemCloseBrace { l with pos := l.pos + 1 }
        ([it], some StateF.root, l2)
      | ';' =>
        let (it, l2) := emitGo ItemType.itemSemicolon { l with pos := l.pos + 1 }
        ([it], some StateF.root, l2)
      | ':' =>
        let (it, l2) := emitGo ItemType.itemColon { l with pos := l.pos + 1 }
        ([it], some StateF.root, l2)
      | '=' =>
        let (it, l2) := emitGo ItemType.itemEquals { l with pos := l.pos + 1 }
        ([it], some StateF.root, l2)
      | _ => ([errorfGo (goStr "Unexpected input") l], none, l))
  else none

/-- Loop of lexSpaceFn: the condition
`unicode.IsSpace(rune(lex.input[lex.pos])) && !lex.eof()` evaluates the
index BEFORE the eof guard, so the Go code panics (modelled `none`) as soon
as pos reaches the end of input while only spaces have been seen.
Structurally recursive on a fuel bound; the wrapper fuel
`input.length + 1 - pos` is exhausted only when pos already exceeds the
input length, where the Go code panics as well. -/
def lexSpaceLoopGoA : Nat → Lexer → Option Lexer
  | 0, _ => none
  | n + 1, l =>
    if h : l.pos < l.input.length then
      if isSpaceGo (l.input.get ⟨l.pos, h⟩) then lexSpaceLoopGoA n { l with pos := l.pos + 1 }
      else some l
    else none

/-- lexSpaceFn from the source: the space loop, then ignore, then the root
state; `none` models the index-out-of-range panic. -/
def lexSpaceFnGo (l : Lexer) : Option (List Item × Option StateF × Lexer) :=
  (lexSpaceLoopGoA (l.input.length + 1 - l.pos) l).map
    (fun l1 => ([], some StateF.root, ignoreGo l1))

/-- One invocation of the state function named by a StateF tag, as done by
the loop of run().  For the tags structBody, classBody, enumBody the
corresponding state functions lexStruct, lexClass, lexEnum are not part of
the inspected source.  Modelled from the spec: those blob-extraction states
scan the body of a struct/class/enum; they are modelled here as states that
emit nothing and terminate, which is the part of their behaviour none of
the theorems below depends on (claims touching them are flagged as
spec-modelled). -/
def stepGo : StateF → Lexer → List Item × Option StateF × Lexer
  | StateF.root, l => lexRootFnGo l
  | StateF.lineComment, l => lexLineCommentFnGo l
  | StateF.eatLine, l => lexEatLineFnGo l
  | StateF.blockComment, l => lexBlockCommentFnGo l
  | StateF.structBody, l => ([], none, l)
  | StateF.classBody, l => ([], none, l)
  | StateF.enumBody, l => ([], none, l)

/-- run from the source: `for state := lexRootFn; state != nil; { state =
state(l) }` followed by `close(l.items)`, driven by fuel.  The result is
the list of items emitted so far plus `none` when the loop reached the nil
state (the channel was closed) or `some (s, l)` when the fuel ran out with
the machine still in state s. -/
def runFromGo : Nat → StateF → Lexer → List Item × Option (StateF × Lexer)
  | 0, s, l => ([], some (s, l))
  | n + 1, s, l =>
    match stepGo s l with
    | (its, none, _) => (its, none)
    | (its, some s2, l2) =>
      let r := runFromGo n s2 l2
      (its ++ r.1, r.2)

/-- lex from the source: the initial scanner state for an input (line and
startLine start at 1, everything else at zero). -/
def mkLexer (input : List Char) : Lexer :=
  { input := input, line := 1, startLine := 1, parenDepth := 0, braceDepth := 0,
    angleBracketDepth := 0, pos := 0, start := 0, atEOF := false }

/-- No item of this list is an error item. -/
def noErr (its : List Item) : Prop :=
  ∀ it ∈ its, it.typ ≠ ItemType.itemError

/-- A Go string slice `input[a : a+n]`. -/
def sliceGo (input : List Char) (a n : Nat) : List Char :=
  (input.drop a).take n

/-- Result shape of one state-function invocation in which an error item
can only stand at the very end, and doing so forces the nil next state. -/
def errLastStep (r : List Item × Option StateF × Lexer) : Prop :=
  noErr r.1 ∨
    ∃ pre e, r.1 = pre ++ [e] ∧ noErr pre ∧ e.typ = ItemType.itemError ∧ r.2.1 = none

/-- Result shape of a whole run in which an error item can only stand at
the very end of the emitted items, and doing so forces termination
(the channel is closed: the run result's state component is none). -/
def errLastRun (r : List Item × Option (StateF × Lexer)) : Prop :=
  noErr r.1 ∨
    ∃ pre e, r.1 = pre ++ [e] ∧ noErr pre ∧ e.typ = ItemType.itemError ∧ r.2 = none

theorem noErr_nil : noErr [] := by
  intro it h
  cases h

theorem noErr_cons {it : Item} {its : List Item} (h1 : it.typ ≠ ItemType.itemError)
    (h2 : noErr its) : noErr (it :: its) := by
  intro x hx
  rcases List.mem_cons.mp hx with h | h
  · rw [h]; exact h1
  · exact h2 x h

theorem noErr_append {a b : List Item} (ha : noErr a) (hb : noErr b) : noErr (a ++ b) := by
  intro x hx
  rcases List.mem_append.mp hx with h | h
  · exact ha x h
  · exact hb x h

theorem emitGo_typ (t : ItemType) (l : Lexer) : (emitGo t l).1.typ = t := rfl

theorem errorfGo_typ (msg : List Char) (l : Lexer) :
    (errorfGo msg l).typ = ItemType.itemError := rfl

theorem errLastStep_cons (it : Item) (r : List Item × Option StateF × Lexer)
    (h1 : it.typ ≠ ItemType.itemError) (h2 : errLastStep r) :
    errLastStep (it :: r.1, r.2) := by
  rcases h2 with h | ⟨pre, e, hEq, hPre, hE, hSt⟩
  · exact Or.inl (noErr_cons h1 h)
  · exact Or.inr ⟨it :: pre, e, by simp [errLastStep] at hEq ⊢; simp [hEq], noErr_cons h1 hPre, hE, hSt⟩

theorem errLastStep_err1 (e : Item) (he : e.typ = ItemType.itemError)
    (st : Lexer) : errLastStep ([e], none, st) :=
  Or.inr ⟨[], e, rfl, noErr_nil, he, rfl⟩

theorem errLastStep_err2 (a e : Item) (ha : a.typ ≠ ItemType.itemError)
    (he : e.typ = ItemType.itemError) (st : Lexer) : errLastStep ([a, e], none, st) :=
  Or.inr ⟨[a], e, rfl, noErr_cons ha noErr_nil, he, rfl⟩

theorem errLastStep_err3 (a b e : Item) (ha : a.typ ≠ ItemType.itemError)
    (hb : b.typ ≠ ItemType.itemError) (he : e.typ = ItemType.itemError)
    (st : Lexer) : errLastStep ([a, b, e], none, st) :=
  Or.inr ⟨[a, b], e, rfl, noErr_cons ha (noErr_cons hb noErr_nil), he, rfl⟩

theorem errLastStep_cons_append_err (a : Item) (mid : List Item) (e : Item)
    (ha : a.typ ≠ ItemType.itemError) (hmid : noErr mid) (he : e.typ = ItemType.itemError)
    (st : Lexer) : errLastStep (a :: (mid ++ [e]), none, st) :=
  Or.inr ⟨a :: mid, e, by simp, noErr_cons ha hmid, he, rfl⟩

theorem noErr_structIdentGo (l : Lexer) : noErr (structIdentGo l).1 := by
  unfold structIdentGo
  split
  · exact noErr_cons (by simp [emitGo]) noErr_nil
  · exact noErr_nil

theorem errLastStep_lexLineCommentFnGo (l : Lexer) : errLastStep (lexLineCommentFnGo l) := by
  unfold lexLineCommentFnGo
  split
  · exact Or.inl noErr_nil
  · split
    · exact Or.inl noErr_nil
    · exact Or.inl noErr_nil

theorem errLastStep_lexEatLineFnGo (l : Lexer) : errLastStep (lexEatLineFnGo l) := by
  unfold lexEatLineFnGo
  split
  · exact Or.inl noErr_nil
  · split
    · exact Or.inl noErr_nil
    · exact Or.inl noErr_nil

theorem errLastStep_lexBlockCommentFnGo (l : Lexer) : errLastStep (lexBlockCommentFnGo l) := by
  unfold lexBlockCommentFnGo
  split
  · exact errLastStep_err1 _ rfl _
  · split
    · exact Or.inl noErr_nil
    · exact Or.inl noErr_nil

theorem errLastStep_nsOrBlockGoA (n : Nat) : ∀ (t : HdrOrBlock) (l : Lexer),
    errLastStep (nsOrBlockGoA n t l) := by
  induction n with
  | zero =>
    intro t l
    exact Or.inl noErr_nil
  | succ n ih =>
    intro t l
    cases t with
    | hdr =>
      simp only [nsOrBlockGoA]
      split
      · exact errLastStep_cons _ _ (by simp [emitGo]) (ih _ _)
      · split
        · split
          · exact errLastStep_cons _ _ (by simp [emitGo])
              (errLastStep_cons _ _ (by simp [emitGo]) (ih _ _))
          · exact errLastStep_err2 _ _ (by simp [emitGo]) rfl _
        · exact errLastStep_err1 _ rfl _
    | blk =>
      simp only [nsOrBlockGoA]
      split
      · exact errLastStep_cons _ _ (by simp [emitGo]) (ih _ _)
      · split
        · split
          · exact errLastStep_cons_append_err _ _ _ (by simp [emitGo])
              (noErr_structIdentGo _) rfl _
          · exact Or.inl (noErr_cons (by simp [emitGo])
              (noErr_append (noErr_structIdentGo _)
                (noErr_cons (by simp [emitGo]) noErr_nil)))
        · split
          · split
            · exact errLastStep_err2 _ _ (by simp [emitGo]) rfl _
            · split
              · exact errLastStep_err3 _ _ _ (by simp [emitGo]) (by simp [emitGo]) rfl _
              · exact Or.inl (noErr_cons (by simp [emitGo]) (noErr_cons (by simp [emitGo])
                  (noErr_cons (by simp [emitGo]) noErr_nil)))
          · split
            · split
              · exact errLastStep_err2 _ _ (by simp [emitGo]) rfl _
              · split
                · exact errLastStep_err3 _ _ _ (by simp [emitGo]) (by simp [emitGo]) rfl _
                · exact Or.inl (noErr_cons (by simp [emitGo]) (noErr_cons (by simp [emitGo])
                    (noErr_cons (by simp [emitGo]) noErr_nil)))
            · exact errLastStep_err1 _ rfl _

theorem errLastStep_lexRootFnGo (l : Lexer) : errLastStep (lexRootFnGo l) := by
  unfold lexRootFnGo
  split
  · exact Or.inl noErr_nil
  · split
    · exact Or.inl noErr_nil
    · split
      · exact errLastStep_lexBlockCommentFnGo _
      · split
        · exact errLastStep_lexLineCommentFnGo _
        · split
          · exact errLastStep_lexEatLineFnGo _
          · split
            · exact errLastStep_cons _ _ (by simp [emitGo]) (errLastStep_nsOrBlockGoA _ _ _)
            · exact errLastStep_err1 _ rfl _

theorem errLastStep_stepGo (s : StateF) (l : Lexer) : errLastStep (stepGo s l) := by
  cases s
  · exact errLastStep_lexRootFnGo l
  · exact errLastStep_lexLineCommentFnGo l
  · exact errLastStep_lexEatLineFnGo l
  · exact errLastStep_lexBlockCommentFnGo l
  · exact Or.inl noErr_nil
  · exact Or.inl noErr_nil
  · exact Or.inl noErr_nil

theorem errLastRun_runFromGo (n : Nat) : ∀ (s : StateF) (l : Lexer),
    errLastRun (runFromGo n s l) := by
  induction n with
  | zero =>
    intro s l
    exact Or.inl noErr_nil
  | succ n ih =>
    intro s l
    have hStep := errLastStep_stepGo s l
    simp only [runFromGo]
    rcases hS : stepGo s l with ⟨its, st, l2⟩
    rw [hS] at hStep
    cases st with
    | none =>
      rcases hStep with h | ⟨pre, e, hEq, hPre, hE, hNone⟩
      · exact Or.inl h
      · exact Or.inr ⟨pre, e, hEq, hPre, hE, rfl⟩
    | some s2 =>
      have hits : noErr its := by
        rcases hStep with h | ⟨pre, e, hEq, hPre, hE, hNone⟩
        · exact h
        · exact absurd hNone (by simp)
      rcases ih s2 l2 with h | ⟨pre, e, hEq, hPre, hE, hNone⟩
      · exact Or.inl (noErr_append hits h)
      · refine Or.inr ⟨its ++ pre, e, ?_, noErr_append hits hPre, hE, hNone⟩
        simp [hEq]

theorem mem_of_append_singleton {a c : List Item} {b x : Item} {d : List Item}
    (h : a ++ b :: c = d ++ [x]) (hc : c ≠ []) : b ∈ d := by
  induction a generalizing d with
  | nil =>
    cases d with
    | nil =>
      simp at h
      exact absurd h.2 hc
    | cons hd td =>
      simp at h
      rw [h.1]
      exact List.mem_cons_self _ _
  | cons ha ta ih =>
    cases d with
    | nil =>
      simp at h
    | cons hd td =>
      simp at h
      exact List.mem_cons_of_mem _ (ih h.2)

/-- C5: if the scanner emits an error item, it is the last item delivered
(nothing follows it in the emitted trace) and the producer terminates (the
run result's state component is none, modelling the close of the items
channel). -/
theorem error_item_always_last (n : Nat) (s : StateF) (l : Lexer)
    (pre post : List Item) (e : Item)
    (hTrace : (runFromGo n s l).1 = pre ++ e :: post)
    (hErr : e.typ = ItemType.itemError) :
    post = [] ∧ (runFromGo n s l).2 = none := by
  rcases errLastRun_runFromGo n s l with hN | ⟨pre2, e2, hEq, hPre2, hE2, hNone⟩
  · exfalso
    have : e ∈ (runFromGo n s l).1 := by
      rw [hTrace]
      exact List.mem_append.mpr (Or.inr (List.mem_cons_self _ _))
    exact hN e this hErr
  · rw [hTrace] at hEq
    by_cases hPost : post = []
    · exact ⟨hPost, hNone⟩
    · exfalso
      exact hPre2 e (mem_of_append_singleton hEq hPost) hErr

/-- Witness for error_item_always_last at the concrete input "x", whose
scan emits a single error item. -/
theorem error_item_always_last_witness :
    ([] : List Item) = [] ∧ (runFromGo 1 StateF.root (mkLexer (goStr "x"))).2 = none :=
  error_item_always_last 1 StateF.root (mkLexer (goStr "x")) [] []
    ⟨ItemType.itemError, 0, goStr "Expected namespace", 1⟩ (by decide) (by decide)

theorem runFromGo_fix (s : StateF) (l : Lexer) (h : stepGo s l = ([], some s, l)) :
    ∀ n, (runFromGo n s l).2 = some (s, l) := by
  intro n
  induction n with
  | zero => rfl
  | succ n ih => simp [runFromGo, h, ih]

/-- C2: the scanner does NOT terminate on every input: in the line-comment
and block-comment states a rune that does not end the comment is backed up
after the failed accept, so the state function returns itself with the
lexer unchanged and the run loop never reaches the nil state.  Witnessed by
the inputs "/*x" (block comment with interior text) and "///x" (line
comment with interior text): for every amount of fuel the run is still in
flight, i.e. the emitted item sequence is never completed. -/
theorem comment_states_never_terminate :
    ∀ n : Nat, (runFromGo n StateF.root (mkLexer (goStr "/*x"))).2 ≠ none ∧
      (runFromGo n StateF.root (mkLexer (goStr "///x"))).2 ≠ none := by
  intro n
  constructor
  · cases n with
    | zero => simp [runFromGo]
    | succ n =>
      have h1 : stepGo StateF.root (mkLexer (goStr "/*x")) =
          ([], some StateF.blockComment, { mkLexer (goStr "/*x") with pos := 2 }) := by decide
      have h2 : stepGo StateF.blockComment { mkLexer (goStr "/*x") with pos := 2 } =
          ([], some StateF.blockComment, { mkLexer (goStr "/*x") with pos := 2 }) := by decide
      have h3 := runFromGo_fix _ _ h2 n
      simp [runFromGo, h1, h3]
  · cases n with
    | zero => simp [runFromGo]
    | succ n =>
      have h1 : stepGo StateF.root (mkLexer (goStr "///x")) =
          ([], some StateF.lineComment, { mkLexer (goStr "///x") with pos := 3 }) := by decide
      have h2 : stepGo StateF.lineComment { mkLexer (goStr "///x") with pos := 3 } =
          ([], some StateF.lineComment, { mkLexer (goStr "///x") with pos := 3 }) := by decide
      have h3 := runFromGo_fix _ _ h2 n
      simp [runFromGo, h1, h3]

/-- C1: evaluation at the failing input "namespace ns {".  The claim says
the scanner emits itemNamespace as its first item; instead the very first
item is an error item "Expected namespace", because acceptString backs up
one rune too few on a mismatch (`backupMultiple(i)` instead of i+1), so the
probes for "/*" and "//" consume the first two runes of the keyword. -/
theorem root_plain_namespace_input_errors :
    runFromGo 1 StateF.root (mkLexer (goStr "namespace ns \x7b")) =
      ([⟨ItemType.itemError, 0, goStr "Expected namespace", 1⟩], none) := by decide

/-- C3: evaluation at the failing input "\nXYnamespace{".  The itemNamespace
keyword token is emitted with val = "\nXYnamespace" — the skipped leading
newline (and the two runes consumed by the failed comment probes) are
included in the token text, because the whitespace-skipping branch of
lexRootFn never calls ignore() — and with line = 1 although the keyword
itself starts on line 2. -/
theorem namespace_token_includes_skipped_text :
    runFromGo 2 StateF.root (mkLexer (goStr "\nXYnamespace\x7b")) =
      ([⟨ItemType.itemNamespace, 0, goStr "\nXYnamespace", 1⟩,
        ⟨ItemType.itemOpenBrace, 12, goStr "\x7b", 2⟩,
        ⟨ItemType.itemError, 13, goStr "Expected namespace, struct, class, or enum.", 2⟩],
       none) := by decide

/-- C4: evaluation at the failing input "" (empty input).  Scanning
completes without a lexical error (the run reaches the nil state and the
channel is closed), yet no itemEOF is delivered — the emitted item list is
empty; indeed no state function in the inspected source ever emits
itemEOF. -/
theorem empty_input_completes_without_eof_item :
    runFromGo 1 StateF.root (mkLexer (goStr "")) = ([], none) := by decide

/-- C6: evaluation at the failing input: lexBlockFn looking at "struct{}"
(an anonymous C-style struct, which the claim says is accepted with the
open brace emitted).  Instead the scan produces a single error item
"Expected namespace, struct, class, or enum." and no itemStruct or
itemOpenBrace at all: the failed acceptKeyword probes for "namespace",
"struct", "class" each consume one rune (acceptString backs up one rune
too few on a mismatch), so the struct keyword is never recognized. -/
theorem anonymous_struct_rejected_in_block :
    ((lexBlockFnGo (mkLexer (goStr "struct\x7b\x7d"))).1.map Item.typ =
      [ItemType.itemError]) ∧
    (lexBlockFnGo (mkLexer (goStr "struct\x7b\x7d"))).2.1 = none ∧
    (lexBlockFnGo (mkLexer (goStr "struct\x7b\x7d"))).1.head?.map Item.val =
      some (goStr "Expected namespace, struct, class, or enum.") := by decide

/-- C7: in a scanner state that is not past the end of input, when next()
returns a rune r (not eof), an immediately following backup() restores both
pos and line to their values from before the next() call; when r is a
newline, backup() decrements the line counter by exactly one (next had
incremented it by one). -/
theorem next_backup_restores_pos_line (l : Lexer) (r : Char)
    (hEof : l.atEOF = false) (h : (nextGo l).1 = some r) :
    (backupGo (nextGo l).2).pos = l.pos ∧ (backupGo (nextGo l).2).line = l.line ∧
    (r = '\n' → (nextGo l).2.line = (backupGo (nextGo l).2).line + 1) := by
  have hp : l.pos < l.input.length := by
    by_contra hc
    simp [nextGo, hc] at h
  have hr : l.input[l.pos] = r := by
    simpa [nextGo, hp] using h
  have e2 : (nextGo l).2 =
      { l with pos := l.pos + 1, line := if r = '\n' then l.line + 1 else l.line } := by
    simp [nextGo, advanceGo, hp, hr]
  have hD : l.input[l.pos]?.getD (Char.ofNat 0) = r := by
    rw [List.getElem?_eq_getElem hp]
    simpa using hr
  rw [e2]
  unfold backupGo
  rcases eq_or_ne r '\n' with hnl | hnl <;>
    simp [hEof, hnl, hD]

/-- Witness for next_backup_restores_pos_line at the input "\n" in the
initial state: next consumes the newline (line goes from 1 to 2) and
backup restores pos = 0 and line = 1. -/
theorem next_backup_restores_pos_line_witness :
    (backupGo (nextGo (mkLexer (goStr "\n"))).2).pos = (mkLexer (goStr "\n")).pos ∧
    (backupGo (nextGo (mkLexer (goStr "\n"))).2).line = (mkLexer (goStr "\n")).line ∧
    ('\n' = '\n' → (nextGo (mkLexer (goStr "\n"))).2.line =
      (backupGo (nextGo (mkLexer (goStr "\n"))).2).line + 1) :=
  next_backup_restores_pos_line (mkLexer (goStr "\n")) '\n' (by decide) (by decide)

/-- C8: every item built by emit() carries as val exactly the contiguous
slice of the input that starts at the item's recorded pos field and has the
length of val — emit always reads `l.input[l.start:l.pos]` and records
`l.start` as the item position.  (Error items are built by errorf, not by
emit, and carry a message instead.) -/
theorem emit_val_is_input_slice (l : Lexer) (t : ItemType)
    (h1 : l.start ≤ l.pos) (h2 : l.pos ≤ l.input.length) :
    sliceGo l.input (emitGo t l).1.pos (emitGo t l).1.val.length = (emitGo t l).1.val := by
  simp only [emitGo, sliceGo]
  rw [List.length_take, List.length_drop]
  congr 1
  omega

/-- Witness for emit_val_is_input_slice: emitting from the state over input
"ab" with start 0 and pos 1 yields val "a" = input[0:1]. -/
theorem emit_val_is_input_slice_witness :
    ({ mkLexer (goStr "ab") with pos := 1 }.start ≤ { mkLexer (goStr "ab") with pos := 1 }.pos ∧
      { mkLexer (goStr "ab") with pos := 1 }.pos ≤
        { mkLexer (goStr "ab") with pos := 1 }.input.length) ∧
    sliceGo { mkLexer (goStr "ab") with pos := 1 }.input
        (emitGo ItemType.itemIdentifier { mkLexer (goStr "ab") with pos := 1 }).1.pos
        (emitGo ItemType.itemIdentifier { mkLexer (goStr "ab") with pos := 1 }).1.val.length =
      (emitGo ItemType.itemIdentifier { mkLexer (goStr "ab") with pos := 1 }).1.val :=
  ⟨by decide,
   emit_val_is_input_slice { mkLexer (goStr "ab") with pos := 1 } ItemType.itemIdentifier
     (by decide) (by decide)⟩

theorem acceptStringGoA_spec (k : List Char) : ∀ (i : Nat) (l : Lexer),
    ((acceptStringGoA k i l).1 = true ↔ (l.input.drop l.pos).take k.length = k) ∧
    ((acceptStringGoA k i l).1 = true →
      ((acceptStringGoA k i l).2.input = l.input ∧
       (acceptStringGoA k i l).2.pos = l.pos + k.length ∧
       (acceptStringGoA k i l).2.atEOF = l.atEOF ∧
       (acceptStringGoA k i l).2.start = l.start ∧
       (acceptStringGoA k i l).2.startLine = l.startLine)) := by
  induction k with
  | nil =>
    intro i l
    refine ⟨by simp [acceptStringGoA], fun _ => ?_⟩
    simp [acceptStringGoA]
  | cons c rest ih =>
    intro i l
    by_cases hp : l.pos < l.input.length
    case neg =>
      have hred : acceptStringGoA (c :: rest) i l =
          (false, backupMultipleGo i { l with atEOF := true }) := by
        simp [acceptStringGoA, nextGo, hp]
      have hdrop : l.input.drop l.pos = [] := List.drop_eq_nil_of_le (by omega)
      rw [hred]
      constructor
      · simp [hdrop]
      · intro hfalse
        simp at hfalse
    case pos =>
      have hnext : nextGo l = (some (l.input[l.pos]), advanceGo l (l.input[l.pos])) := by
        simp [nextGo, hp]
      have hdrop : l.input.drop l.pos = l.input[l.pos] :: l.input.drop (l.pos + 1) :=
        List.drop_eq_getElem_cons hp
      have hfields : (advanceGo l (l.input[l.pos])).input = l.input ∧
          (advanceGo l (l.input[l.pos])).pos = l.pos + 1 ∧
          (advanceGo l (l.input[l.pos])).atEOF = l.atEOF ∧
          (advanceGo l (l.input[l.pos])).start = l.start ∧
          (advanceGo l (l.input[l.pos])).startLine = l.startLine := by
        simp [advanceGo]
      by_cases hc : l.input[l.pos] = c
      · have hred : acceptStringGoA (c :: rest) i l =
            acceptStringGoA rest (i + 1) (advanceGo l (l.input[l.pos])) := by
          simp [acceptStringGoA, hnext, hc]
        have ihs := ih (i + 1) (advanceGo l (l.input[l.pos]))
        rw [hred]
        constructor
        · rw [ihs.1, hfields.1, hfields.2.1]
          rw [hdrop, hc]
          simp
        · intro htrue
          obtain ⟨f1, f2, f3, f4, f5⟩ := ihs.2 htrue
          refine ⟨by rw [f1, hfields.1], ?_, by rw [f3, hfields.2.2.1],
            by rw [f4, hfields.2.2.2.1], by rw [f5, hfields.2.2.2.2]⟩
          rw [f2, hfields.2.1]
          simp
          omega
      · have hred : acceptStringGoA (c :: rest) i l =
            (false, backupMultipleGo i (advanceGo l (l.input[l.pos]))) := by
          simp [acceptStringGoA, hnext, hc]
        rw [hred]
        constructor
        · constructor
          · intro hfalse
            simp at hfalse
          · intro hRHS
            exfalso
            simp only [List.length_cons] at hRHS
            rw [hdrop, List.take_succ_cons] at hRHS
            injection hRHS with h1 h2
            exact hc h1
        · intro hfalse
          simp at hfalse

/-- C9: acceptKeyword(k) returns true exactly when the input at the current
position begins with k and the rune after k (if any) is not a letter,
digit, or underscore; on success the position advances by exactly the
length of k.  In particular a keyword that is a proper prefix of a longer
identifier (e.g. "structure") is never matched as the keyword ("struct"),
since the rune after the candidate keyword is then alphanumeric. -/
theorem acceptKeyword_characterization (k : List Char) (l : Lexer)
    (hEof : l.atEOF = false) :
    ((acceptKeywordGo k l).1 = true ↔
      ((l.input.drop l.pos).take k.length = k ∧
        isAlphaNumericOpt l.input[l.pos + k.length]? = false)) ∧
    ((acceptKeywordGo k l).1 = true →
      (acceptKeywordGo k l).2.pos = l.pos + k.length) := by
  unfold acceptKeywordGo
  split
  next l1 hs =>
    have hspec := acceptStringGoA_spec k 0 l
    rw [show acceptStringGoA k 0 l = acceptStringGo k l from rfl, hs] at hspec
    have hnp : ¬ (l.input.drop l.pos).take k.length = k := by
      intro hk
      have h2 := hspec.1.mpr hk
      simp at h2
    exact ⟨⟨fun hf => by simp at hf, fun hRHS => absurd hRHS.1 hnp⟩,
      fun hf => by simp at hf⟩
  next l1 hs =>
    have hspec := acceptStringGoA_spec k 0 l
    rw [show acceptStringGoA k 0 l = acceptStringGo k l from rfl, hs] at hspec
    have g1 : l1.input = l.input := (hspec.2 rfl).1
    have g2 : l1.pos = l.pos + k.length := (hspec.2 rfl).2.1
    have g3 : l1.atEOF = l.atEOF := (hspec.2 rfl).2.2.1
    have hk : (l.input.drop l.pos).take k.length = k := hspec.1.mp rfl
    split
    next heof =>
      have he : l.input.length ≤ l.pos + k.length := by
        simp [eofGo, g1, g2] at heof
        exact heof
      have hget : l.input[l.pos + k.length]? = none := by
        simp [List.getElem?_eq_none, he]
      refine ⟨⟨fun _ => ⟨hk, by rw [hget]; rfl⟩, fun _ => rfl⟩, fun _ => g2⟩
    next heof =>
      have he : l.pos + k.length < l.input.length := by
        simp [eofGo, g1, g2] at heof
        omega
      have hp1 : l1.pos < l1.input.length := by
        rw [g1, g2]
        omega
      have hnext1 : nextGo l1 = (some (l1.input[l1.pos]), advanceGo l1 (l1.input[l1.pos])) := by
        simp [nextGo, hp1]
      have hsome2 : l.input[l.pos + k.length]? = some (l.input[l.pos + k.length]) :=
        List.getElem?_eq_getElem he
      have hc0 : l1.input[l1.pos] = l.input[l.pos + k.length] := by
        have hq : (some (l1.input[l1.pos]) : Option Char) = some (l.input[l.pos + k.length]) := by
          rw [← List.getElem?_eq_getElem hp1, ← hsome2, g1, g2]
        exact Option.some.inj hq
      have hEof1 : l1.atEOF = false := by
        rw [g3]
        exact hEof
      have hredA : acceptAlphaNumericGo l1 =
          (if isAlphaNumericGo (l1.input[l1.pos]) then (true, advanceGo l1 (l1.input[l1.pos]))
           else (false, backupGo (advanceGo l1 (l1.input[l1.pos])))) := by
        simp [acceptAlphaNumericGo, hnext1, isAlphaNumericOpt]
      split
      next l2 hred =>
        rw [hredA] at hred
        by_cases hal : isAlphaNumericGo (l1.input[l1.pos]) = true
        · have hRHSf : isAlphaNumericOpt l.input[l.pos + k.length]? = true := by
            rw [hsome2]
            simpa [isAlphaNumericOpt, hc0] using hal
          refine ⟨⟨fun hf => by simp at hf, fun hRHS => ?_⟩, fun hf => by simp at hf⟩
          rw [hRHS.2] at hRHSf
          cases hRHSf
        · simp [hal] at hred
      next l2 hred =>
        rw [hredA] at hred
        by_cases hal : isAlphaNumericGo (l1.input[l1.pos]) = true
        · simp [hal] at hred
        · have hl2 : l2 = backupGo (advanceGo l1 (l1.input[l1.pos])) := by
            simp [hal] at hred
            exact hred.symm
          have hbk : (backupGo (advanceGo l1 (l1.input[l1.pos]))).pos = l1.pos := by
            simp [backupGo, advanceGo, hEof1]
          refine ⟨⟨fun _ => ⟨hk, ?_⟩, fun _ => rfl⟩, fun _ => ?_⟩
          · rw [hsome2]
            simpa [isAlphaNumericOpt, hc0] using hal
          · show l2.pos = l.pos + k.length
            rw [hl2, hbk, g2]

/-- Witness for acceptKeyword_characterization at the keyword "struct" and
the input "struct{": the keyword matches (the brace after it is not
alphanumeric) and pos advances by 6. -/
theorem acceptKeyword_characterization_witness :
    (((acceptKeywordGo (goStr "struct") (mkLexer (goStr "struct\x7b"))).1 = true ↔
      (((mkLexer (goStr "struct\x7b")).input.drop
          (mkLexer (goStr "struct\x7b")).pos).take (goStr "struct").length = goStr "struct" ∧
        isAlphaNumericOpt
          (mkLexer (goStr "struct\x7b")).input[(mkLexer (goStr "struct\x7b")).pos +
            (goStr "struct").length]? = false)) ∧
    ((acceptKeywordGo (goStr "struct") (mkLexer (goStr "struct\x7b"))).1 = true →
      (acceptKeywordGo (goStr "struct") (mkLexer (goStr "struct\x7b"))).2.pos =
        (mkLexer (goStr "struct\x7b")).pos + (goStr "struct").length)) :=
  acceptKeyword_characterization (goStr "struct") (mkLexer (goStr "struct\x7b")) (by decide)

theorem lexSpaceLoopGoA_isSome : ∀ (n : Nat) (l : Lexer), l.input.length + 1 ≤ n + l.pos →
    ((lexSpaceLoopGoA n l).isSome = true ↔
      ∃ i, l.pos ≤ i ∧ ∃ c, l.input[i]? = some c ∧ isSpaceGo c = false) := by
  intro n
  induction n with
  | zero =>
    intro l hn
    constructor
    · intro h
      simp [lexSpaceLoopGoA] at h
    · rintro ⟨i, hi, c, hc, hcs⟩
      exfalso
      rw [List.getElem?_eq_none (by omega)] at hc
      cases hc
  | succ n ih =>
    intro l hn
    by_cases hp : l.pos < l.input.length
    · by_cases hsp : isSpaceGo (l.input[l.pos]) = true
      · have hred : lexSpaceLoopGoA (n + 1) l = lexSpaceLoopGoA n { l with pos := l.pos + 1 } := by
          simp [lexSpaceLoopGoA, hp, hsp]
        rw [hred, ih { l with pos := l.pos + 1 } (by simp; omega)]
        constructor
        · rintro ⟨i, hi, c, hc, hcs⟩
          simp at hi
          exact ⟨i, by omega, c, by simpa using hc, hcs⟩
        · rintro ⟨i, hi, c, hc, hcs⟩
          refine ⟨i, ?_, c, by simpa using hc, hcs⟩
          simp
          rcases Nat.lt_or_ge l.pos i with h | h
          · omega
          · exfalso
            have hie : i = l.pos := by omega
            rw [hie, List.getElem?_eq_getElem hp] at hc
            injection hc with hc2
            rw [← hc2] at hcs
            rw [hsp] at hcs
            cases hcs
      · have hred : lexSpaceLoopGoA (n + 1) l = some l := by
          simp [lexSpaceLoopGoA, hp, hsp]
        rw [hred]
        simp
        exact ⟨l.pos, le_refl _, l.input[l.pos], List.getElem?_eq_getElem hp,
          by simpa using hsp⟩
    · have hred : lexSpaceLoopGoA (n + 1) l = none := by
        simp [lexSpaceLoopGoA, hp]
      rw [hred]
      constructor
      · intro h
        simp at h
      · rintro ⟨i, hi, c, hc, hcs⟩
        exfalso
        rw [List.getElem?_eq_none (by omega)] at hc
        cases hc

/-- C10: lexSymbolFn and lexSpaceFn index input[pos] without a preceding
end-of-input check (lexSpaceFn evaluates IsSpace(input[pos]) before the
eof() guard in its loop condition), so (modelling the index panic as none)
lexSymbolFn completes exactly when pos < len(input), and lexSpaceFn
completes exactly when some non-space rune occurs at or after pos before
the end of input — in particular both panic when pos is at the end of
input, and lexSpaceFn also panics on all-space suffixes.  Every other state
function of the scanner reads runes only through next()/eof(), which check
bounds, and is embedded as a total function. -/
theorem symbol_and_space_bounds (l : Lexer) :
    ((lexSymbolFnGo l).isSome = true ↔ l.pos < l.input.length) ∧
    ((lexSpaceFnGo l).isSome = true ↔
      ∃ i, l.pos ≤ i ∧ ∃ c, l.input[i]? = some c ∧ isSpaceGo c = false) := by
  constructor
  · unfold lexSymbolFnGo
    split
    next hp => simp [hp]
    next hp => simp [hp]
  · have hloop := lexSpaceLoopGoA_isSome (l.input.length + 1 - l.pos) l (by omega)
    rw [← hloop]
    unfold lexSpaceFnGo
    cases lexSpaceLoopGoA (l.input.length + 1 - l.pos) l <;> simp

end Beamsplitter
